import Mathlib

/-!
Verification of the TrustNoCorpo build-ledger subsystem (`tnc/logger.py`,
`tnc/core.py`) against its natural-language specification.

The ledger state (the `encrypted_builds` SQLite table) is modelled as a
`List Row`; SQL operations become pure list operations.  The authenticity
signature (`hashlib.sha256(...).hexdigest()`) and the build identifier
(`hashlib.md5(...).hexdigest()[:16]`) are embedded by full executable
SHA-256 and MD5 implementations over `Nat` bytes.  The Fernet + base64 +
JSON pipeline (`base64.b64encode(fernet.encrypt(json.dumps(d)))` and its
inverse, exceptions mapped to `none`) is the cryptographic boundary: it is
passed to each operation as a pair of functions `enc : BuildData → String`
and `dec : String → Option BuildData`, with round-trip facts assumed only
pointwise where a theorem needs them.
-/

/-! ### Bytes, hex and UTF-8 helpers -/

/-- Lower-case hex digit for a nibble (`0`–`9`, `a`–`f`). -/
def hexDigitChar (n : Nat) : Char :=
  if n < 10 then Char.ofNat (48 + n) else Char.ofNat (87 + n)

/-- Two lower-case hex characters for one byte, high nibble first. -/
def byteToHex (b : Nat) : List Char :=
  [hexDigitChar (b / 16 % 16), hexDigitChar (b % 16)]

/-- Hex characters of a byte list (as produced by Python `hexdigest()`). -/
def bytesToHexChars (bs : List Nat) : List Char :=
  (bs.map byteToHex).flatten

/-- Recognizer for the characters `hexdigest()` can emit. -/
def isLowerHexDigit (c : Char) : Bool :=
  ("0123456789abcdef".data).contains c

/-- UTF-8 bytes of one character (Python `str.encode()` on one code point). -/
def utf8Char (c : Char) : List Nat :=
  let n := c.toNat
  if n < 128 then [n]
  else if n < 2048 then [192 + n / 64, 128 + n % 64]
  else if n < 65536 then [224 + n / 4096, 128 + n / 64 % 64, 128 + n % 64]
  else [240 + n / 262144, 128 + n / 4096 % 64, 128 + n / 64 % 64, 128 + n % 64]

/-- UTF-8 bytes of a string (Python `str.encode()`). -/
def utf8 (s : String) : List Nat :=
  (s.data.map utf8Char).flatten

/-- List lookup with default `0`, used for word/byte indexing. -/
def nth (l : List Nat) (i : Nat) : Nat := l.getD i 0

/-- Python-style character slice `s[:n]`. -/
def strTake (s : String) (n : Nat) : String := ⟨s.data.take n⟩

/-! ### 32-bit word arithmetic over `Nat` -/

/-- Wrap to a 32-bit word. -/
def w32 (n : Nat) : Nat := n % 4294967296

/-- Right rotation of a 32-bit word. -/
def rotr32 (x n : Nat) : Nat := w32 ((x >>> n) ||| (x <<< (32 - n)))

/-- Left rotation of a 32-bit word. -/
def rotl32 (x n : Nat) : Nat := w32 ((x <<< n) ||| (x >>> (32 - n)))

/-- Bitwise complement within 32 bits. -/
def not32 (x : Nat) : Nat := x ^^^ 4294967295

/-- Big-endian bytes of a 32-bit word. -/
def wordBE (w : Nat) : List Nat :=
  [w / 16777216 % 256, w / 65536 % 256, w / 256 % 256, w % 256]

/-- Little-endian bytes of a 32-bit word. -/
def wordLE (w : Nat) : List Nat :=
  [w % 256, w / 256 % 256, w / 65536 % 256, w / 16777216 % 256]

/-- Big-endian 8-byte encoding of a length-in-bits counter. -/
def lenBE64 (n : Nat) : List Nat :=
  [n / 72057594037927936 % 256, n / 281474976710656 % 256,
   n / 1099511627776 % 256, n / 4294967296 % 256,
   n / 16777216 % 256, n / 65536 % 256, n / 256 % 256, n % 256]

/-- Little-endian 8-byte encoding of a length-in-bits counter. -/
def lenLE64 (n : Nat) : List Nat :=
  [n % 256, n / 256 % 256, n / 65536 % 256, n / 16777216 % 256,
   n / 4294967296 % 256, n / 1099511627776 % 256,
   n / 281474976710656 % 256, n / 72057594037927936 % 256]

/-- Group a byte list into 64-byte blocks. -/
def chunks64 (l : List Nat) : List (List Nat) :=
  if h : l = [] then []
  else l.take 64 :: chunks64 (l.drop 64)
termination_by l.length
decreasing_by
  cases l with
  | nil => exact absurd rfl h
  | cons a t => simp [List.length_drop]; omega

/-- Big-endian 32-bit words from a byte list (SHA-256 block parsing). -/
def bytesToWordsBE : List Nat → List Nat
  | b0 :: b1 :: b2 :: b3 :: rest =>
      (((b0 * 256 + b1) * 256 + b2) * 256 + b3) :: bytesToWordsBE rest
  | _ => []

/-- Little-endian 32-bit words from a byte list (MD5 block parsing). -/
def bytesToWordsLE : List Nat → List Nat
  | b0 :: b1 :: b2 :: b3 :: rest =>
      (b0 + 256 * (b1 + 256 * (b2 + 256 * b3))) :: bytesToWordsLE rest
  | _ => []

/-! ### SHA-256 (FIPS 180-4), as used by `hashlib.sha256` in `log_build`
and `verify_build` -/

/-- SHA-256 round constants. -/
def sha256K : List Nat :=
  [1116352408, 1899447441, 3049323471, 3921009573,
   961987163, 1508970993, 2453635748, 2870763221,
   3624381080, 310598401, 607225278, 1426881987,
   1925078388, 2162078206, 2614888103, 3248222580,
   3835390401, 4022224774, 264347078, 604807628,
   770255983, 1249150122, 1555081692, 1996064986,
   2554220882, 2821834349, 2952996808, 3210313671,
   3336571891, 3584528711, 113926993, 338241895,
   666307205, 773529912, 1294757372, 1396182291,
   1695183700, 1986661051, 2177026350, 2456956037,
   2730485921, 2820302411, 3259730800, 3345764771,
   3516065817, 3600352804, 4094571909, 275423344,
   430227734, 506948616, 659060556, 883997877,
   958139571, 1322822218, 1537002063, 1747873779,
   1955562222, 2024104815, 2227730452, 2361852424,
   2428436474, 2756734187, 3204031479, 3329325298]

/-- SHA-256 `Ch` function. -/
def shaCh (x y z : Nat) : Nat := (x &&& y) ^^^ (not32 x &&& z)

/-- SHA-256 `Maj` function. -/
def shaMaj (x y z : Nat) : Nat := (x &&& y) ^^^ (x &&& z) ^^^ (y &&& z)

/-- SHA-256 `Σ₀`. -/
def bsig0 (x : Nat) : Nat := rotr32 x 2 ^^^ rotr32 x 13 ^^^ rotr32 x 22

/-- SHA-256 `Σ₁`. -/
def bsig1 (x : Nat) : Nat := rotr32 x 6 ^^^ rotr32 x 11 ^^^ rotr32 x 25

/-- SHA-256 `σ₀`. -/
def ssig0 (x : Nat) : Nat := rotr32 x 7 ^^^ rotr32 x 18 ^^^ (x >>> 3)

/-- SHA-256 `σ₁`. -/
def ssig1 (x : Nat) : Nat := rotr32 x 17 ^^^ rotr32 x 19 ^^^ (x >>> 10)

/-- SHA-256 padding: `0x80`, zeros to 56 mod 64, 64-bit big-endian bit length. -/
def sha256Pad (msg : List Nat) : List Nat :=
  let len := msg.length
  let zeros := (64 + 56 - (len + 1) % 64) % 64
  msg ++ [128] ++ List.replicate zeros 0 ++ lenBE64 (8 * len)

/-- Extend a 16-word block schedule by `n` further words. -/
def extendW : Nat → List Nat → List Nat
  | 0, w => w
  | n + 1, w =>
      let i := w.length
      extendW n
        (w ++ [w32 (nth w (i - 16) + ssig0 (nth w (i - 15)) +
                    nth w (i - 7) + ssig1 (nth w (i - 2)))])

/-- Eight-word SHA-256 working state. -/
structure Sha8 where
  a : Nat
  b : Nat
  c : Nat
  d : Nat
  e : Nat
  f : Nat
  g : Nat
  h : Nat
deriving Repr

/-- SHA-256 initial hash state. -/
def sha256Init : Sha8 :=
  ⟨1779033703, 3144134277, 1013904242, 2773480762,
   1359893119, 2600822924, 528734635, 1541459225⟩

/-- One SHA-256 round. -/
def sha256Step (w : List Nat) (s : Sha8) (t : Nat) : Sha8 :=
  let t1 := w32 (s.h + bsig1 s.e + shaCh s.e s.f s.g + nth sha256K t + nth w t)
  let t2 := w32 (bsig0 s.a + shaMaj s.a s.b s.c)
  ⟨w32 (t1 + t2), s.a, s.b, s.c, w32 (s.d + t1), s.e, s.f, s.g⟩

/-- Compress one 64-byte block into the running state. -/
def sha256Compress (s : Sha8) (chunk : List Nat) : Sha8 :=
  let w := extendW 48 (bytesToWordsBE chunk)
  let r := (List.range 64).foldl (sha256Step w) s
  ⟨w32 (s.a + r.a), w32 (s.b + r.b), w32 (s.c + r.c), w32 (s.d + r.d),
   w32 (s.e + r.e), w32 (s.f + r.f), w32 (s.g + r.g), w32 (s.h + r.h)⟩

/-- SHA-256 digest (32 bytes) of a byte list. -/
def sha256Bytes (msg : List Nat) : List Nat :=
  let s := (chunks64 (sha256Pad msg)).foldl sha256Compress sha256Init
  wordBE s.a ++ wordBE s.b ++ wordBE s.c ++ wordBE s.d ++
  wordBE s.e ++ wordBE s.f ++ wordBE s.g ++ wordBE s.h

/-- Python `hashlib.sha256(s.encode()).hexdigest()`. -/
def sha256hex (s : String) : String :=
  ⟨bytesToHexChars (sha256Bytes (utf8 s))⟩

/-! ### MD5 (RFC 1321), as used by `hashlib.md5` in `_generate_build_hash` -/

/-- MD5 sine-table constants `K[0..63]`. -/
def md5K : List Nat :=
  [3614090360, 3905402710, 606105819, 3250441966,
   4118548399, 1200080426, 2821735955, 4249261313,
   1770035416, 2336552879, 4294925233, 2304563134,
   1804603682, 4254626195, 2792965006, 1236535329,
   4129170786, 3225465664, 643717713, 3921069994,
   3593408605, 38016083, 3634488961, 3889429448,
   568446438, 3275163606, 4107603335, 1163531501,
   2850285829, 4243563512, 1735328473, 2368359562,
   4294588738, 2272392833, 1839030562, 4259657740,
   2763975236, 1272893353, 4139469664, 3200236656,
   681279174, 3936430074, 3572445317, 76029189,
   3654602809, 3873151461, 530742520, 3299628645,
   4096336452, 1126891415, 2878612391, 4237533241,
   1700485571, 2399980690, 4293915773, 2240044497,
   1873313359, 4264355552, 2734768916, 1309151649,
   4149444226, 3174756917, 718787259, 3951481745]

/-- MD5 per-round left-rotation amounts `s[0..63]`. -/
def md5S : List Nat :=
  [7, 12, 17, 22, 7, 12, 17, 22, 7, 12, 17, 22, 7, 12, 17, 22,
   5, 9, 14, 20, 5, 9, 14, 20, 5, 9, 14, 20, 5, 9, 14, 20,
   4, 11, 16, 23, 4, 11, 16, 23, 4, 11, 16, 23, 4, 11, 16, 23,
   6, 10, 15, 21, 6, 10, 15, 21, 6, 10, 15, 21, 6, 10, 15, 21]

/-- Four-word MD5 working state. -/
structure Md5St where
  a : Nat
  b : Nat
  c : Nat
  d : Nat
deriving Repr

/-- MD5 initial state. -/
def md5Init : Md5St := ⟨1732584193, 4023233417, 2562383102, 271733878⟩

/-- MD5 padding: `0x80`, zeros to 56 mod 64, 64-bit little-endian bit length. -/
def md5Pad (msg : List Nat) : List Nat :=
  let len := msg.length
  let zeros := (64 + 56 - (len + 1) % 64) % 64
  msg ++ [128] ++ List.replicate zeros 0 ++ lenLE64 (8 * len)

/-- One MD5 round: mixing function value and message-word index for round `i`. -/
def md5FG (s : Md5St) (i : Nat) : Nat × Nat :=
  if i < 16 then ((s.b &&& s.c) ||| (not32 s.b &&& s.d), i)
  else if i < 32 then ((s.d &&& s.b) ||| (not32 s.d &&& s.c), (5 * i + 1) % 16)
  else if i < 48 then (s.b ^^^ s.c ^^^ s.d, (3 * i + 5) % 16)
  else (s.c ^^^ (s.b ||| not32 s.d), (7 * i) % 16)

/-- One MD5 round step on message words `m`. -/
def md5Step (m : List Nat) (s : Md5St) (i : Nat) : Md5St :=
  let fg := md5FG s i
  let sum := w32 (s.a + fg.1 + nth md5K i + nth m fg.2)
  ⟨s.d, w32 (s.b + rotl32 sum (nth md5S i)), s.b, s.c⟩

/-- Compress one 64-byte block into the running MD5 state. -/
def md5Compress (s : Md5St) (chunk : List Nat) : Md5St :=
  let m := bytesToWordsLE chunk
  let r := (List.range 64).foldl (md5Step m) s
  ⟨w32 (s.a + r.a), w32 (s.b + r.b), w32 (s.c + r.c), w32 (s.d + r.d)⟩

/-- MD5 digest (16 bytes) of a byte list. -/
def md5Bytes (msg : List Nat) : List Nat :=
  let s := (chunks64 (md5Pad msg)).foldl md5Compress md5Init
  wordLE s.a ++ wordLE s.b ++ wordLE s.c ++ wordLE s.d

/-- Python `hashlib.md5(s.encode()).hexdigest()`. -/
def md5hex (s : String) : String :=
  ⟨bytesToHexChars (md5Bytes (utf8 s))⟩

/-! ### Ledger data model (`tnc/logger.py`)

A row of the `encrypted_builds` table (schema created by
`_init_encrypted_database`): `build_hash` is `UNIQUE NOT NULL`, the other
four columns are `NOT NULL` text.  The SQLite `id` autoincrement column
plays no role in any queried behaviour and is omitted. -/

structure Row where
  build_hash : String
  encrypted_data : String
  user_fingerprint : String
  user_signature : String
  timestamp_utc : String
deriving DecidableEq, Repr

/-- Plaintext build metadata: the dict `build_data` that `log_build`
serializes with `json.dumps` and Fernet-encrypts.  Fields and order follow
`logger.py` lines 105–117. -/
structure BuildData where
  build_hash : String
  generation_info : String
  generation_time : String
  classification : String
  main_file : String
  pdf_path : Option String
  pdf_password_hint : Option String
  user : String
  timestamp_iso : String
  pdf_size : Nat
  recipient_token : Option String
deriving DecidableEq, Repr

/-- Ambient values `log_build` reads from outside its arguments:
`os.environ['USER']`, `datetime.now().isoformat()`, the file-size oracle
`os.path.getsize`/`os.path.exists` (`fs p = none` models a missing file),
`KeyManager.get_user_fingerprint()`, and `datetime.utcnow().isoformat()`. -/
structure LogEnv where
  user : String
  timestamp_iso : String
  fs : String → Option Nat
  user_fingerprint : String
  timestamp_utc : String

/-- The explicit arguments of `BuildLogger.log_build`. -/
structure LogArgs where
  build_hash : String
  generation_info : String
  generation_time : String
  classification : String
  main_file : String
  pdf_path : Option String := none
  pdf_password : Option String := none
  recipient_token : Option String := none

/-- The `build_data` dict assembled by `log_build` (lines 105–117).
`pdf_password_hint` is `pdf_password[:8] + "..." if pdf_password else None`
(Python truthiness: `None` and `""` both yield `None`); `pdf_size` is
`os.path.getsize(pdf_path) if pdf_path and os.path.exists(pdf_path) else 0`. -/
def buildDataOf (env : LogEnv) (args : LogArgs) : BuildData :=
  { build_hash := args.build_hash
    generation_info := args.generation_info
    generation_time := args.generation_time
    classification := args.classification
    main_file := args.main_file
    pdf_path := args.pdf_path
    pdf_password_hint :=
      match args.pdf_password with
      | some p => if p = "" then none else some (strTake p 8 ++ "...")
      | none => none
    user := env.user
    timestamp_iso := env.timestamp_iso
    pdf_size :=
      match args.pdf_path with
      | some p => if p = "" then 0 else
          match env.fs p with
          | some sz => sz
          | none => 0
      | none => 0
    recipient_token := args.recipient_token }

/-- SQLite `INSERT OR REPLACE` on the `UNIQUE build_hash` key: any row with
a conflicting key is deleted and the new row is inserted. -/
def insertOrReplace (db : List Row) (r : Row) : List Row :=
  db.filter (fun q => !(q.build_hash == r.build_hash)) ++ [r]

/-- SQL `SELECT ... WHERE build_hash = ?` followed by `fetchone()`. -/
def lookupRow (db : List Row) (h : String) : Option Row :=
  db.find? (fun r => r.build_hash == h)

/-- The row `log_build` stores (`logger.py` lines 119–143): ciphertext from
the Fernet/base64 pipeline `enc`, signature
`hashlib.sha256(f"{build_hash}{encrypted_data_b64}".encode()).hexdigest()`. -/
def rowOfLog (enc : BuildData → String) (env : LogEnv) (args : LogArgs) : Row :=
  let d := buildDataOf env args
  let encrypted_data_b64 := enc d
  { build_hash := args.build_hash
    encrypted_data := encrypted_data_b64
    user_fingerprint := env.user_fingerprint
    user_signature := sha256hex (args.build_hash ++ encrypted_data_b64)
    timestamp_utc := env.timestamp_utc }

/-- `BuildLogger.log_build` acting on the table state. -/
def log_build (enc : BuildData → String) (env : LogEnv) (args : LogArgs)
    (db : List Row) : List Row :=
  insertOrReplace db (rowOfLog enc env args)

/-- `BuildLogger.verify_build` (`logger.py` lines 158–211): row lookup by
hash, signature recomputation over `f"{build_hash}{encrypted_data}"`, then
a decryption attempt; `False` on missing row, mismatch, or decrypt failure. -/
def verify_build (dec : String → Option BuildData) (db : List Row)
    (build_hash : String) : Bool :=
  match lookupRow db build_hash with
  | none => false
  | some r =>
    let expected_signature := sha256hex (build_hash ++ r.encrypted_data)
    if expected_signature ≠ r.user_signature then false
    else
      match dec r.encrypted_data with
      | some _ => true
      | none => false

/-! ### Ordering by storage timestamp

`list_builds`, `find_by_recipient_token` and `export_signed` all issue
`ORDER BY timestamp_utc DESC`; SQLite compares TEXT columns bytewise, which
on the ISO-8601 timestamps the logger stores coincides with chronological
order.  `charListLe`/`strLe` model that comparison (code-point order, equal
to byte order on these ASCII timestamps); `rowGe a b` says `a` sorts no
later than `b` in the descending output. -/

def charListLe : List Char → List Char → Bool
  | [], _ => true
  | _ :: _, [] => false
  | a :: as, b :: bs =>
      if a.toNat < b.toNat then true
      else if b.toNat < a.toNat then false
      else charListLe as bs

/-- Bytewise string comparison (SQLite TEXT collation on ASCII data). -/
def strLe (a b : String) : Bool := charListLe a.data b.data

theorem charListLe_refl : ∀ l : List Char, charListLe l l = true
  | [] => rfl
  | a :: as => by simp [charListLe, charListLe_refl as]

theorem charListLe_total :
    ∀ l1 l2 : List Char, charListLe l1 l2 = true ∨ charListLe l2 l1 = true
  | [], _ => Or.inl rfl
  | _ :: _, [] => Or.inr rfl
  | a :: as, b :: bs => by
    by_cases h1 : a.toNat < b.toNat
    · left
      simp [charListLe, h1]
    · by_cases h2 : b.toNat < a.toNat
      · right
        simp [charListLe, h2]
      · rcases charListLe_total as bs with h | h
        · left
          simp [charListLe, h1, h2, h]
        · right
          simp [charListLe, h1, h2, h]

theorem charListLe_trans : ∀ l1 l2 l3 : List Char,
    charListLe l1 l2 = true → charListLe l2 l3 = true →
    charListLe l1 l3 = true
  | [], _, _, _, _ => rfl
  | _ :: _, [], _, h12, _ => by simp [charListLe] at h12
  | _ :: _, _ :: _, [], _, h23 => by simp [charListLe] at h23
  | a :: as, b :: bs, c :: cs, h12, h23 => by
    simp only [charListLe] at h12 h23 ⊢
    by_cases hab : a.toNat < b.toNat
    · by_cases hbc : b.toNat < c.toNat
      · simp [show a.toNat < c.toNat from Nat.lt_trans hab hbc]
      · by_cases hcb : c.toNat < b.toNat
        · simp [hbc, hcb] at h23
        · simp [show a.toNat < c.toNat from by omega]
    · by_cases hba : b.toNat < a.toNat
      · simp [hab, hba] at h12
      · by_cases hbc : b.toNat < c.toNat
        · simp [show a.toNat < c.toNat from by omega]
        · by_cases hcb : c.toNat < b.toNat
          · simp [hbc, hcb] at h23
          · have hac : ¬ a.toNat < c.toNat := by omega
            have hca : ¬ c.toNat < a.toNat := by omega
            simp [hab, hba] at h12
            simp [hbc, hcb] at h23
            simp [hac, hca]
            exact charListLe_trans as bs cs h12 h23

/-- Descending-by-timestamp comparison used to model `ORDER BY ... DESC`. -/
def rowGe (a b : Row) : Prop := strLe b.timestamp_utc a.timestamp_utc = true

instance : DecidableRel rowGe := fun a b =>
  inferInstanceAs (Decidable (strLe b.timestamp_utc a.timestamp_utc = true))

instance : IsTotal Row rowGe :=
  ⟨fun a b => charListLe_total b.timestamp_utc.data a.timestamp_utc.data⟩

instance : IsTrans Row rowGe :=
  ⟨fun _ _ _ hab hbc => charListLe_trans _ _ _ hbc hab⟩

/-- The row sequence produced by `ORDER BY timestamp_utc DESC`. -/
def sortRowsDesc (db : List Row) : List Row :=
  List.insertionSort rowGe db

/-- The summary dict built per row by `list_builds` (lines 244–251). -/
structure Summary where
  build_hash : String
  classification : String
  main_file : String
  user_fingerprint : String
  timestamp_iso : String
  pdf_size : Nat
deriving DecidableEq, Repr

/-- Summary of one row whose ciphertext decrypted to `d`. -/
def summaryOf (r : Row) (d : BuildData) : Summary :=
  { build_hash := r.build_hash
    classification := d.classification
    main_file := d.main_file
    user_fingerprint := r.user_fingerprint
    timestamp_iso := d.timestamp_iso
    pdf_size := d.pdf_size }

/-- Per-row step of the `list_builds` loop: decrypt, summarize, or skip. -/
def mkSummary? (dec : String → Option BuildData) (r : Row) : Option Summary :=
  (dec r.encrypted_data).map (summaryOf r)

/-- `BuildLogger.list_builds` (`logger.py` lines 213–261): select rows
newest first, keep at most `limit`, decrypt each and skip rows whose
decryption raises. -/
def list_builds (dec : String → Option BuildData) (db : List Row)
    (limit : Nat) : List Summary :=
  ((sortRowsDesc db).take limit).filterMap (mkSummary? dec)

/-- The result dict of `find_by_recipient_token` (lines 281–288). -/
structure FindResult where
  build_hash : String
  classification : String
  timestamp_iso : String
  user_fingerprint : String
  main_file : String
  pdf_path : Option String
deriving DecidableEq, Repr

/-- Result of `find_by_recipient_token` for a row decrypting to `d`. -/
def findResultOf (r : Row) (d : BuildData) : FindResult :=
  { build_hash := r.build_hash
    classification := d.classification
    timestamp_iso := d.timestamp_iso
    user_fingerprint := r.user_fingerprint
    main_file := d.main_file
    pdf_path := d.pdf_path }

/-- Scan loop of `find_by_recipient_token`: first row (in the given order)
that decrypts and whose `recipient_token` equals the query token; rows that
fail to decrypt are skipped. -/
def findTokenAux (dec : String → Option BuildData) (token : String) :
    List Row → Option FindResult
  | [] => none
  | r :: rs =>
    match dec r.encrypted_data with
    | some d =>
        if d.recipient_token = some token then some (findResultOf r d)
        else findTokenAux dec token rs
    | none => findTokenAux dec token rs

/-- `BuildLogger.find_by_recipient_token` (`logger.py` lines 263–293). -/
def find_by_recipient_token (dec : String → Option BuildData)
    (db : List Row) (token : String) : Option FindResult :=
  findTokenAux dec token (sortRowsDesc db)

/-! ### Database initialization (`_init_encrypted_database`) -/

/-- On-disk state seen by `_init_encrypted_database`: the contents of the
sibling `.key` file (`none` = missing), whether the `encrypted_builds`
table already exists, and its rows. -/
structure LedgerFiles where
  keyFile : Option Nat
  tableExists : Bool
  rows : List Row
deriving DecidableEq, Repr

/-- `BuildLogger._init_encrypted_database` (`logger.py` lines 44–77):
if the key file is missing a fresh Fernet key (`freshKey`) is generated and
written, otherwise the existing key is loaded; then
`CREATE TABLE IF NOT EXISTS` leaves existing rows untouched.  The returned
`Nat` is the key the logger's Fernet instance will use.  No branch fails:
the code never raises a key-mismatch error. -/
def init_encrypted_database (fs : LedgerFiles) (freshKey : Nat) :
    LedgerFiles × Nat :=
  match fs.keyFile with
  | none =>
      ({ keyFile := some freshKey, tableExists := true, rows := fs.rows },
       freshKey)
  | some k => ({ fs with tableExists := true }, k)

/-! ### `tnc/core.py` fragments -/

/-- `trustnocorpo._generate_build_hash` (`core.py` lines 359–362):
`hashlib.md5(f"{tex_file}{classification}{now}".encode()).hexdigest()[:16]`,
with `now` standing for `datetime.now().isoformat()`. -/
def generate_build_hash (tex_file classification now : String) : String :=
  strTake (md5hex (tex_file ++ classification ++ now)) 16

/-- Invisible token text run emitted by the `capyInvisibleToken` macro in
the style written by `trustnocorpo._create_basic_style` (`core.py` line
471): the literal is `TNC_TOKEN:~\capyRecipientToken`, so after macro
expansion the run is `TNC_TOKEN:`, then the LaTeX non-breaking space `~`,
then the token. -/
def invisible_token_text (token : String) : String :=
  "TNC_TOKEN:~" ++ token

/-- Ciphertext tampering: the `encrypted_data` column of the row keyed by
`h` is overwritten with `c'` directly in the backing store. -/
def tamperCipher (db : List Row) (h c' : String) : List Row :=
  db.map (fun r => if r.build_hash == h then { r with encrypted_data := c' } else r)

/-! ### Supporting lemmas -/

theorem lookup_insertOrReplace_self (db : List Row) (r : Row) :
    lookupRow (insertOrReplace db r) r.build_hash = some r := by
  unfold lookupRow insertOrReplace
  rw [List.find?_append]
  have h1 : (db.filter (fun q => !(q.build_hash == r.build_hash))).find?
      (fun q => q.build_hash == r.build_hash) = none := by
    rw [List.find?_eq_none]
    intro x hx
    have hx2 := (List.mem_filter.mp hx).2
    simpa using hx2
  rw [h1]
  simp

theorem lookup_tamperCipher (db : List Row) (h c' : String) :
    lookupRow (tamperCipher db h c') h =
      (lookupRow db h).map (fun r => { r with encrypted_data := c' }) := by
  induction db with
  | nil => rfl
  | cons r rs ih =>
    by_cases hr : (r.build_hash == h) = true
    · have hupd : (({ r with encrypted_data := c' } : Row).build_hash == h)
          = true := hr
      have lhs : lookupRow (tamperCipher (r :: rs) h c') h =
          some { r with encrypted_data := c' } := by
        unfold tamperCipher lookupRow
        rw [List.map_cons, if_pos hr,
          List.find?_cons_of_pos (p := fun (q : Row) => q.build_hash == h) _ hupd]
      have rhs : lookupRow (r :: rs) h = some r := by
        unfold lookupRow
        rw [List.find?_cons_of_pos (p := fun (q : Row) => q.build_hash == h) _ hr]
      rw [lhs, rhs]
      rfl
    · unfold tamperCipher lookupRow at ih ⊢
      rw [List.map_cons, if_neg hr,
        List.find?_cons_of_neg (p := fun (q : Row) => q.build_hash == h) _ hr,
        List.find?_cons_of_neg (p := fun (q : Row) => q.build_hash == h) _ hr]
      exact ih

theorem verify_build_lookup (dec : String → Option BuildData) (db : List Row)
    (h : String) (r : Row) (hr : lookupRow db h = some r) :
    verify_build dec db h =
      if sha256hex (h ++ r.encrypted_data) = r.user_signature then
        (match dec r.encrypted_data with
         | some _ => true
         | none => false)
      else false := by
  unfold verify_build
  rw [hr]
  by_cases hc : sha256hex (h ++ r.encrypted_data) = r.user_signature <;>
    simp [hc]

/-! ### Claim theorems -/

/-- C1: after a successful `log_build(h, ...)`, `verify_build(h)` returns
`True`; if the stored `encrypted_data` column is afterwards altered to any
different string, `verify_build(h)` returns `False`, because the recomputed
signature no longer matches or the decryption fails (the two cases the
claim itself names; an alteration evading both would be a SHA-256 collision
together with a Fernet authentication forgery). -/
theorem verify_build_roundtrip_and_tamper
    (enc : BuildData → String) (dec : String → Option BuildData)
    (env : LogEnv) (args : LogArgs) (db : List Row)
    (hdec : dec (enc (buildDataOf env args)) = some (buildDataOf env args)) :
    verify_build dec (log_build enc env args db) args.build_hash = true ∧
    ∀ c', c' ≠ enc (buildDataOf env args) →
      (sha256hex (args.build_hash ++ c') ≠
          sha256hex (args.build_hash ++ enc (buildDataOf env args)) ∨
        dec c' = none) →
      verify_build dec
        (tamperCipher (log_build enc env args db) args.build_hash c')
        args.build_hash = false := by
  have hl : lookupRow (log_build enc env args db) args.build_hash =
      some (rowOfLog enc env args) := by
    have h0 := lookup_insertOrReplace_self db (rowOfLog enc env args)
    simpa [log_build, rowOfLog] using h0
  constructor
  · rw [verify_build_lookup dec _ _ _ hl]
    simp [rowOfLog, hdec]
  · intro c' _ hdisj
    have hl2 : lookupRow
        (tamperCipher (log_build enc env args db) args.build_hash c')
        args.build_hash =
        some { rowOfLog enc env args with encrypted_data := c' } := by
      rw [lookup_tamperCipher, hl]
      rfl
    rw [verify_build_lookup dec _ _ _ hl2]
    rcases hdisj with hsig | hdn
    · have : ¬ (sha256hex (args.build_hash ++ c') =
          ({ rowOfLog enc env args with encrypted_data := c' }).user_signature) := by
        simpa [rowOfLog] using hsig
      simp [this]
    · by_cases hc : sha256hex (args.build_hash ++ c')
          = ({ rowOfLog enc env args with encrypted_data := c' }).user_signature <;>
        simp [hc, hdn]

/-- Concrete witness material shared by several claims: a one-token
Fernet-pipeline model (`encW`/`decW`), a fixed environment and arguments. -/
def argsW : LogArgs :=
  { build_hash := "h0", generation_info := "gi", generation_time := "gt",
    classification := "SECRET", main_file := "doc.tex" }

/-- Fixed ambient environment for witnesses. -/
def envW : LogEnv :=
  { user := "u", timestamp_iso := "2026-01-01T00:00:01",
    fs := fun _ => none, user_fingerprint := "fp",
    timestamp_utc := "2026-01-01T00:00:01" }

/-- Same environment with a different user fingerprint. -/
def envW2 : LogEnv := { envW with user_fingerprint := "fp2" }

/-- Model encryption for witnesses: every plaintext maps to token `E`. -/
def encW : BuildData → String := fun _ => "E"

/-- Model decryption for witnesses: only token `E` decrypts. -/
def decW : String → Option BuildData :=
  fun s => if s = "E" then some (buildDataOf envW argsW) else none

theorem verify_build_roundtrip_and_tamper_witness :
    verify_build decW (log_build encW envW argsW []) "h0" = true ∧
    verify_build decW (tamperCipher (log_build encW envW argsW []) "h0" "X")
      "h0" = false := by
  have h := verify_build_roundtrip_and_tamper encW decW envW argsW []
    (by decide)
  exact ⟨h.1, h.2 "X" (by decide) (Or.inr (by decide))⟩

/-- C2: the stored `user_signature` is the SHA-256 hex digest of the
concatenation of the `build_hash` and `encrypted_data` columns exactly as
persisted, and `verify_build` recomputes it from the persisted row only:
two database states agreeing on the row for an identifier verify
identically. -/
theorem signature_pure_function_of_stored_columns
    (enc : BuildData → String) (env : LogEnv) (args : LogArgs) (db : List Row)
    (dec : String → Option BuildData) (db1 db2 : List Row) (h : String)
    (hrow : lookupRow db1 h = lookupRow db2 h) :
    (rowOfLog enc env args).user_signature =
        sha256hex ((rowOfLog enc env args).build_hash ++
          (rowOfLog enc env args).encrypted_data) ∧
    log_build enc env args db = insertOrReplace db (rowOfLog enc env args) ∧
    verify_build dec db1 h = verify_build dec db2 h := by
  refine ⟨rfl, rfl, ?_⟩
  unfold verify_build
  rw [hrow]

theorem signature_pure_function_of_stored_columns_witness :
    (rowOfLog encW envW argsW).user_signature =
        sha256hex ((rowOfLog encW envW argsW).build_hash ++
          (rowOfLog encW envW argsW).encrypted_data) ∧
    log_build encW envW argsW [] = insertOrReplace [] (rowOfLog encW envW argsW) ∧
    verify_build decW [] "h0" = verify_build decW [] "h0" :=
  signature_pure_function_of_stored_columns encW envW argsW [] decW [] [] "h0"
    rfl

/-- C3 counterexample: two records logged with the same build identifier
and identical ciphertext but different owner fingerprints carry EQUAL
stored signatures — the digest does not bind the fingerprint, refuting the
claim that the signatures must differ. -/
theorem signature_ignores_fingerprint_counterexample :
    (rowOfLog encW envW argsW).build_hash =
        (rowOfLog encW envW2 argsW).build_hash ∧
    (rowOfLog encW envW argsW).encrypted_data =
        (rowOfLog encW envW2 argsW).encrypted_data ∧
    (rowOfLog encW envW argsW).user_fingerprint ≠
        (rowOfLog encW envW2 argsW).user_fingerprint ∧
    (rowOfLog encW envW argsW).user_signature =
        (rowOfLog encW envW2 argsW).user_signature :=
  ⟨rfl, rfl, by decide, rfl⟩

/-- C3 amended: the per-record signature is the digest of identifier and
ciphertext only; any two logged records agreeing on those two stored
columns carry the same signature, whatever their owner fingerprints. -/
theorem signature_binds_identifier_and_ciphertext
    (enc1 enc2 : BuildData → String) (env1 env2 : LogEnv)
    (args1 args2 : LogArgs)
    (hh : (rowOfLog enc1 env1 args1).build_hash =
      (rowOfLog enc2 env2 args2).build_hash)
    (hc : (rowOfLog enc1 env1 args1).encrypted_data =
      (rowOfLog enc2 env2 args2).encrypted_data) :
    (rowOfLog enc1 env1 args1).user_signature =
      (rowOfLog enc2 env2 args2).user_signature := by
  have e1 : (rowOfLog enc1 env1 args1).user_signature =
      sha256hex ((rowOfLog enc1 env1 args1).build_hash ++
        (rowOfLog enc1 env1 args1).encrypted_data) := rfl
  have e2 : (rowOfLog enc2 env2 args2).user_signature =
      sha256hex ((rowOfLog enc2 env2 args2).build_hash ++
        (rowOfLog enc2 env2 args2).encrypted_data) := rfl
  rw [e1, e2, hh, hc]

theorem signature_binds_identifier_and_ciphertext_witness :
    (rowOfLog encW envW argsW).user_signature =
      (rowOfLog encW envW2 argsW).user_signature :=
  signature_binds_identifier_and_ciphertext encW encW envW envW2 argsW argsW
    rfl rfl

/-- A sequence of `log_build` calls against an initially empty ledger, each
with its own ambient environment. -/
def runLog (enc : BuildData → String) (calls : List (LogEnv × LogArgs)) :
    List Row :=
  calls.foldl (fun db c => log_build enc c.1 c.2 db) []

theorem nodup_insertOrReplace (db : List Row) (r : Row)
    (hdb : (db.map Row.build_hash).Nodup) :
    ((insertOrReplace db r).map Row.build_hash).Nodup := by
  unfold insertOrReplace
  rw [List.map_append, List.nodup_append]
  refine ⟨?_, by simp, ?_⟩
  · exact ((List.filter_sublist db).map Row.build_hash).nodup hdb
  · intro x hx
    obtain ⟨q, hq, hqx⟩ := List.mem_map.mp hx
    have hne := (List.mem_filter.mp hq).2
    simp only [List.map_cons, List.map_nil]
    intro hx2
    rcases List.mem_cons.mp hx2 with hx3 | hx3
    · subst hqx
      rw [hx3] at hne
      simp at hne
    · simp at hx3

theorem nodup_foldl_log (enc : BuildData → String)
    (calls : List (LogEnv × LogArgs)) :
    ∀ db : List Row, (db.map Row.build_hash).Nodup →
      (((calls.foldl (fun db c => log_build enc c.1 c.2 db) db)).map
        Row.build_hash).Nodup := by
  induction calls with
  | nil => intro db hdb; exact hdb
  | cons c cs ih =>
    intro db hdb
    exact ih _ (nodup_insertOrReplace db _ hdb)

theorem summaries_hash_sublist (dec : String → Option BuildData)
    (l : List Row) :
    ((l.filterMap (mkSummary? dec)).map Summary.build_hash).Sublist
      (l.map Row.build_hash) := by
  induction l with
  | nil => simp
  | cons r rs ih =>
    cases hd : dec r.encrypted_data with
    | none =>
      rw [List.filterMap_cons_none (by simp [mkSummary?, hd]), List.map_cons]
      exact ih.cons _
    | some d =>
      rw [List.filterMap_cons_some (f := mkSummary? dec)
        (b := summaryOf r d) (by simp [mkSummary?, hd]),
        List.map_cons, List.map_cons]
      have hbh : (summaryOf r d).build_hash = r.build_hash := rfl
      rw [hbh]
      exact ih.cons₂ _

/-- C4: after any sequence of `log_build` calls the ledger holds at most
one row per `build_hash` (`INSERT OR REPLACE` on the `UNIQUE` key); a
second `log_build` with an existing identifier replaces the prior row, so
the row found afterwards is exactly the newly built one; and `list_builds`
never returns two summaries with the same `build_hash`. -/
theorem ledger_unique_build_hash
    (enc : BuildData → String) (calls : List (LogEnv × LogArgs))
    (env2 : LogEnv) (args2 : LogArgs) (db db2 : List Row)
    (dec : String → Option BuildData) (limit : Nat)
    (hdb2 : (db2.map Row.build_hash).Nodup) :
    ((runLog enc calls).map Row.build_hash).Nodup ∧
    lookupRow (log_build enc env2 args2 db) args2.build_hash =
      some (rowOfLog enc env2 args2) ∧
    ((list_builds dec db2 limit).map Summary.build_hash).Nodup := by
  refine ⟨nodup_foldl_log enc calls [] (by simp), ?_, ?_⟩
  · have h0 := lookup_insertOrReplace_self db (rowOfLog enc env2 args2)
    simpa [log_build, rowOfLog] using h0
  · have hperm : (sortRowsDesc db2).Perm db2 := List.perm_insertionSort _ _
    have hsn : ((sortRowsDesc db2).map Row.build_hash).Nodup :=
      ((hperm.map Row.build_hash).nodup_iff).mpr hdb2
    have htn : (((sortRowsDesc db2).take limit).map Row.build_hash).Nodup :=
      ((List.take_sublist limit _).map Row.build_hash).nodup hsn
    exact (summaries_hash_sublist dec _).nodup htn

theorem ledger_unique_build_hash_witness :
    ((runLog encW [(envW, argsW), (envW2, argsW)]).map Row.build_hash).Nodup ∧
    lookupRow (log_build encW envW2 argsW []) argsW.build_hash =
      some (rowOfLog encW envW2 argsW) ∧
    ((list_builds decW [] 10).map Summary.build_hash).Nodup :=
  ledger_unique_build_hash encW [(envW, argsW), (envW2, argsW)] envW2 argsW
    [] [] decW 10 (by simp)

/-- C5: `list_builds(limit)` considers every row of the table ordered
newest first by the stored UTC timestamp (descending text order), keeps at
most `limit` of them, and returns exactly the summaries of those selected
rows whose ciphertext decrypts — rows failing decryption are skipped
without aborting the listing (the function is total). -/
theorem list_builds_ordered_and_skips_corrupted
    (dec : String → Option BuildData) (db : List Row) (limit : Nat) :
    (sortRowsDesc db).Perm db ∧
    List.Pairwise rowGe (sortRowsDesc db) ∧
    list_builds dec db limit =
      ((sortRowsDesc db).take limit).filterMap (mkSummary? dec) ∧
    (∀ s, s ∈ list_builds dec db limit ↔
      ∃ r ∈ (sortRowsDesc db).take limit, ∃ d,
        dec r.encrypted_data = some d ∧ s = summaryOf r d) := by
  refine ⟨List.perm_insertionSort _ _, List.sorted_insertionSort rowGe db,
    rfl, ?_⟩
  intro s
  rw [list_builds, List.mem_filterMap]
  constructor
  · rintro ⟨r, hr, hmk⟩
    rcases Option.map_eq_some'.mp hmk with ⟨d, hd, hs⟩
    exact ⟨r, hr, d, hd, hs.symm⟩
  · rintro ⟨r, hr, d, hd, hs⟩
    exact ⟨r, hr, by simp [mkSummary?, hd, hs.symm]⟩

theorem findTokenAux_some (dec : String → Option BuildData) (token : String)
    (l : List Row) (res : FindResult) (hp : List.Pairwise rowGe l)
    (hfind : findTokenAux dec token l = some res) :
    ∃ r d, r ∈ l ∧ dec r.encrypted_data = some d ∧
      d.recipient_token = some token ∧ res = findResultOf r d ∧
      ∀ r' ∈ l, ∀ d', dec r'.encrypted_data = some d' →
        d'.recipient_token = some token →
        strLe r'.timestamp_utc r.timestamp_utc = true := by
  induction l with
  | nil => simp [findTokenAux] at hfind
  | cons r rs ih =>
    rw [List.pairwise_cons] at hp
    obtain ⟨hhead, htail⟩ := hp
    cases hd : dec r.encrypted_data with
    | some d =>
      simp only [findTokenAux, hd] at hfind
      by_cases ht : d.recipient_token = some token
      · rw [if_pos ht] at hfind
        injection hfind with hres
        refine ⟨r, d, List.mem_cons_self r rs, hd, ht, hres.symm, ?_⟩
        intro r' hr' d' _ _
        rcases List.mem_cons.mp hr' with h1 | h1
        · subst h1; exact charListLe_refl _
        · exact hhead r' h1
      · rw [if_neg ht] at hfind
        obtain ⟨r0, d0, hmem, hd0, ht0, hres0, hmax⟩ := ih htail hfind
        refine ⟨r0, d0, List.mem_cons_of_mem _ hmem, hd0, ht0, hres0, ?_⟩
        intro r' hr' d' hd' ht'
        rcases List.mem_cons.mp hr' with h1 | h1
        · subst h1
          rw [hd] at hd'
          injection hd' with hde
          subst hde
          exact absurd ht' ht
        · exact hmax r' h1 d' hd' ht'
    | none =>
      simp only [findTokenAux, hd] at hfind
      obtain ⟨r0, d0, hmem, hd0, ht0, hres0, hmax⟩ := ih htail hfind
      refine ⟨r0, d0, List.mem_cons_of_mem _ hmem, hd0, ht0, hres0, ?_⟩
      intro r' hr' d' hd' ht'
      rcases List.mem_cons.mp hr' with h1 | h1
      · subst h1
        rw [hd] at hd'
        exact absurd hd' (by simp)
      · exact hmax r' h1 d' hd' ht'

theorem findTokenAux_none (dec : String → Option BuildData) (token : String)
    (l : List Row) (hfind : findTokenAux dec token l = none) :
    ∀ r ∈ l, ∀ d, dec r.encrypted_data = some d →
      d.recipient_token ≠ some token := by
  induction l with
  | nil => simp
  | cons r rs ih =>
    intro r' hr' d' hd'
    cases hd : dec r.encrypted_data with
    | some d =>
      simp only [findTokenAux, hd] at hfind
      by_cases ht : d.recipient_token = some token
      · rw [if_pos ht] at hfind
        exact absurd hfind (by simp)
      · rw [if_neg ht] at hfind
        rcases List.mem_cons.mp hr' with h1 | h1
        · subst h1
          rw [hd] at hd'
          injection hd' with hde
          subst hde
          exact ht
        · exact ih hfind r' h1 d' hd'
    | none =>
      simp only [findTokenAux, hd] at hfind
      rcases List.mem_cons.mp hr' with h1 | h1
      · subst h1
        rw [hd] at hd'
        exact absurd hd' (by simp)
      · exact ih hfind r' h1 d' hd'

/-- C6: if `find_by_recipient_token(t)` returns a result, it is the summary
of a stored record whose decrypted metadata carries `recipient_token = t`,
and that record's storage timestamp is maximal among all such records; if
it returns `None`, no stored record decrypts to metadata carrying `t`. -/
theorem find_by_recipient_token_spec
    (dec : String → Option BuildData) (db : List Row) (token : String) :
    (∀ res, find_by_recipient_token dec db token = some res →
      ∃ r d, r ∈ db ∧ dec r.encrypted_data = some d ∧
        d.recipient_token = some token ∧ res = findResultOf r d ∧
        ∀ r' ∈ db, ∀ d', dec r'.encrypted_data = some d' →
          d'.recipient_token = some token →
          strLe r'.timestamp_utc r.timestamp_utc = true) ∧
    (find_by_recipient_token dec db token = none →
      ∀ r ∈ db, ∀ d, dec r.encrypted_data = some d →
        d.recipient_token ≠ some token) := by
  have hperm : (sortRowsDesc db).Perm db := List.perm_insertionSort _ _
  constructor
  · intro res hres
    obtain ⟨r, d, hmem, hd, ht, hres0, hmax⟩ :=
      findTokenAux_some dec token _ res
        (List.sorted_insertionSort rowGe db) hres
    exact ⟨r, d, hperm.mem_iff.mp hmem, hd, ht, hres0,
      fun r' hr' d' hd' ht' =>
        hmax r' (hperm.mem_iff.mpr hr') d' hd' ht'⟩
  · intro hnone r hr d hd
    exact findTokenAux_none dec token _ hnone r (hperm.mem_iff.mpr hr) d hd

/-- The two records of the specification scenario: `B1` (classification
`SECRET`, token `alice`, newer) and `B2` (classification `PUBLIC`, token
`bob`, older). -/
def rowB1 : Row :=
  { build_hash := "B1", encrypted_data := "c1", user_fingerprint := "fp",
    user_signature := "s1", timestamp_utc := "2026-01-02T00:00:00" }

/-- The older scenario row. -/
def rowB2 : Row :=
  { build_hash := "B2", encrypted_data := "c2", user_fingerprint := "fp",
    user_signature := "s2", timestamp_utc := "2026-01-01T00:00:00" }

/-- Metadata of scenario record `B1`. -/
def dataB1 : BuildData :=
  { build_hash := "B1", generation_info := "gi", generation_time := "gt",
    classification := "SECRET", main_file := "b1.tex", pdf_path := none,
    pdf_password_hint := none, user := "u",
    timestamp_iso := "2026-01-02T00:00:00", pdf_size := 0,
    recipient_token := some ("alice") }

/-- Metadata of scenario record `B2`. -/
def dataB2 : BuildData :=
  { build_hash := "B2", generation_info := "gi", generation_time := "gt",
    classification := "PUBLIC", main_file := "b2.tex", pdf_path := none,
    pdf_password_hint := none, user := "u",
    timestamp_iso := "2026-01-01T00:00:00", pdf_size := 0,
    recipient_token := some ("bob") }

/-- Model decryption for the scenario ledger. -/
def decTok : String → Option BuildData :=
  fun s => if s = "c1" then some dataB1
    else if s = "c2" then some dataB2 else none

/-- The scenario ledger state. -/
def dbTok : List Row := [rowB2, rowB1]

theorem find_by_recipient_token_spec_witness :
    (∃ r d, r ∈ dbTok ∧ decTok r.encrypted_data = some d ∧
      d.recipient_token = some ("alice") ∧
      findResultOf rowB1 dataB1 = findResultOf r d ∧
      ∀ r' ∈ dbTok, ∀ d', decTok r'.encrypted_data = some d' →
        d'.recipient_token = some ("alice") →
        strLe r'.timestamp_utc r.timestamp_utc = true) ∧
    (∀ r ∈ dbTok, ∀ d, decTok r.encrypted_data = some d →
      d.recipient_token ≠ some ("carol")) := by
  have h1 := find_by_recipient_token_spec decTok dbTok ("alice")
  have h2 := find_by_recipient_token_spec decTok dbTok ("carol")
  exact ⟨h1.1 (findResultOf rowB1 dataB1) (by decide), h2.2 (by decide)⟩


/-- Arguments carrying a short (six-character) PDF password. -/
def argsPw : LogArgs :=
  { build_hash := "h1", generation_info := "gi", generation_time := "gt",
    classification := "SECRET", main_file := "doc.tex",
    pdf_password := some ("secret") }

/-- C7 counterexample: for the six-character password `secret`, the stored
metadata's `pdf_password_hint` is `secret...` — the full password, followed
by dots, sits verbatim in the stored hint and is trivially recoverable,
refuting the claim that the hint never contains the full password. -/
theorem password_hint_short_password_counterexample :
    (buildDataOf envW argsPw).pdf_password_hint = some ("secret...") ∧
    (("secret").data).isPrefixOf (("secret...").data) = true := by decide

/-- C7 amended: when a non-empty `pdf_password` is supplied, the stored
metadata's hint is exactly the first eight characters of the password
followed by `...`; consequently only passwords longer than eight characters
have their tail withheld, while any password of at most eight characters is
contained whole in the stored hint. -/
theorem password_hint_truncates_to_first_eight
    (env : LogEnv) (args : LogArgs) (p : String)
    (hpw : args.pdf_password = some p) (hp : p ≠ "") :
    (buildDataOf env args).pdf_password_hint =
      some (strTake p 8 ++ "...") := by
  simp [buildDataOf, hpw, hp]

theorem password_hint_truncates_to_first_eight_witness :
    (buildDataOf envW argsPw).pdf_password_hint =
      some (strTake ("secret") 8 ++ "...") :=
  password_hint_truncates_to_first_eight envW argsPw ("secret") rfl
    (by decide)

/-- A pre-existing ledger whose schema and rows survive on disk while the
sibling key file is missing. -/
def preKeyMissing : LedgerFiles :=
  { keyFile := none, tableExists := true,
    rows := [{ build_hash := "old", encrypted_data := "oldcipher",
               user_fingerprint := "fp", user_signature := "oldsig",
               timestamp_utc := "2025-12-31T00:00:00" }] }

/-- C8 counterexample: opening a ledger whose schema (and a stored row)
already exists but whose key file is missing does not fail — the code
generates a fresh key (here `42`), persists it, adopts it as the Fernet
key, and keeps the old rows, which the fresh key cannot decrypt; no
`KeyFileMismatch` error exists anywhere in the code. -/
theorem init_database_fresh_key_counterexample :
    (init_encrypted_database preKeyMissing 42).1.keyFile = some 42 ∧
    (init_encrypted_database preKeyMissing 42).1.rows = preKeyMissing.rows ∧
    (init_encrypted_database preKeyMissing 42).2 = 42 := by decide

/-- C8 amended: when the schema already exists but the key file is missing,
`_init_encrypted_database` proceeds instead of failing: it writes a freshly
generated key, uses it as the encryption key, and leaves the existing rows
in place (rows encrypted under the lost key remain stored but can no longer
be decrypted). -/
theorem init_database_regenerates_missing_key
    (fs : LedgerFiles) (freshKey : Nat) (hk : fs.keyFile = none) :
    (init_encrypted_database fs freshKey).1.keyFile = some freshKey ∧
    (init_encrypted_database fs freshKey).1.rows = fs.rows ∧
    (init_encrypted_database fs freshKey).1.tableExists = true ∧
    (init_encrypted_database fs freshKey).2 = freshKey := by
  simp [init_encrypted_database, hk]

theorem init_database_regenerates_missing_key_witness :
    (init_encrypted_database preKeyMissing 7).1.keyFile = some 7 ∧
    (init_encrypted_database preKeyMissing 7).1.rows = preKeyMissing.rows ∧
    (init_encrypted_database preKeyMissing 7).1.tableExists = true ∧
    (init_encrypted_database preKeyMissing 7).2 = 7 :=
  init_database_regenerates_missing_key preKeyMissing 7 rfl

/-- C9 counterexample: the emitted invisible run for token `alice` is not
the literal `TNC_TOKEN:` immediately followed by the token — a `~`
separator intervenes. -/
theorem invisible_token_not_immediate_counterexample :
    invisible_token_text ("alice") ≠ ("TNC_TOKEN:alice") := by decide

/-- C9 amended: the invisible text run is the literal `TNC_TOKEN:` followed
by a `~` (a LaTeX non-breaking space) and then the token, and for no token
does it equal `TNC_TOKEN:` immediately followed by the token, so an
extraction regex demanding the token directly after the colon fails; the
regex must accept the intervening space. -/
theorem invisible_token_has_separator (token : String) :
    invisible_token_text token = ("TNC_TOKEN:~") ++ token ∧
    invisible_token_text token ≠ ("TNC_TOKEN:") ++ token := by
  refine ⟨rfl, ?_⟩
  intro hcontra
  have hlen := congrArg (fun s : String => s.data.length) hcontra
  simp only [invisible_token_text, String.data_append,
    List.length_append] at hlen
  have h1 : ("TNC_TOKEN:~").data.length = 11 := by decide
  have h2 : ("TNC_TOKEN:").data.length = 10 := by decide
  rw [h1, h2] at hlen
  omega

theorem hexDigitChar_hex (m : Nat) (hm : m < 16) :
    isLowerHexDigit (hexDigitChar m) = true := by
  interval_cases m <;> decide

theorem byteToHex_hex (b : Nat) :
    ∀ c ∈ byteToHex b, isLowerHexDigit c = true := by
  intro c hc
  rcases List.mem_cons.mp hc with h1 | h1
  · subst h1
    exact hexDigitChar_hex _ (Nat.mod_lt _ (by omega))
  · rcases List.mem_cons.mp h1 with h2 | h2
    · subst h2
      exact hexDigitChar_hex _ (Nat.mod_lt _ (by omega))
    · simp at h2

theorem bytesToHexChars_hex (bs : List Nat) :
    ∀ c ∈ bytesToHexChars bs, isLowerHexDigit c = true := by
  intro c hc
  unfold bytesToHexChars at hc
  obtain ⟨l, hl, hcl⟩ := List.mem_flatten.mp hc
  obtain ⟨b, _, hbl⟩ := List.mem_map.mp hl
  subst hbl
  exact byteToHex_hex b c hcl

theorem bytesToHexChars_length (bs : List Nat) :
    (bytesToHexChars bs).length = 2 * bs.length := by
  induction bs with
  | nil => rfl
  | cons b t ih =>
    simp only [bytesToHexChars, List.map_cons, List.flatten_cons,
      List.length_append, byteToHex, List.length_cons, List.length_nil,
      List.length_cons] at ih ⊢
    omega

theorem md5Bytes_length (msg : List Nat) : (md5Bytes msg).length = 16 := by
  simp [md5Bytes, wordLE]

/-- C10: for every source path, classification and timestamp, the build
identifier produced by `_generate_build_hash` is a string of exactly 16
characters, each a lowercase hexadecimal digit — the first 16 characters of
the 32-character MD5 hex digest of path + classification + timestamp. -/
theorem generate_build_hash_shape (tex_file classification now : String) :
    (generate_build_hash tex_file classification now).data.length = 16 ∧
    (∀ c ∈ (generate_build_hash tex_file classification now).data,
      isLowerHexDigit c = true) ∧
    generate_build_hash tex_file classification now =
      strTake (md5hex (tex_file ++ classification ++ now)) 16 := by
  have h32 : (md5hex (tex_file ++ classification ++ now)).data.length = 32 := by
    show (bytesToHexChars (md5Bytes (utf8 _))).length = 32
    rw [bytesToHexChars_length, md5Bytes_length]
  refine ⟨?_, ?_, rfl⟩
  · show ((md5hex (tex_file ++ classification ++ now)).data.take 16).length = 16
    rw [List.length_take, h32]
    rfl
  · intro c hc
    have hc2 : c ∈ (md5hex (tex_file ++ classification ++ now)).data :=
      List.take_subset 16 _ hc
    exact bytesToHexChars_hex _ c hc2

theorem list_builds_ordered_and_skips_corrupted_witness :
    (sortRowsDesc dbTok).Perm dbTok ∧
    List.Pairwise rowGe (sortRowsDesc dbTok) ∧
    list_builds decTok dbTok 10 =
      ((sortRowsDesc dbTok).take 10).filterMap (mkSummary? decTok) ∧
    (∀ s, s ∈ list_builds decTok dbTok 10 ↔
      ∃ r ∈ (sortRowsDesc dbTok).take 10, ∃ d,
        decTok r.encrypted_data = some d ∧ s = summaryOf r d) :=
  list_builds_ordered_and_skips_corrupted decTok dbTok 10

theorem invisible_token_has_separator_witness :
    invisible_token_text ("bob") = ("TNC_TOKEN:~") ++ ("bob") ∧
    invisible_token_text ("bob") ≠ ("TNC_TOKEN:") ++ ("bob") :=
  invisible_token_has_separator ("bob")

theorem generate_build_hash_shape_witness :
    (generate_build_hash ("a.tex") ("SECRET") ("2026-01-01T00:00:02")).data.length
      = 16 ∧
    (∀ c ∈ (generate_build_hash ("a.tex") ("SECRET")
        ("2026-01-01T00:00:02")).data, isLowerHexDigit c = true) ∧
    generate_build_hash ("a.tex") ("SECRET") ("2026-01-01T00:00:02") =
      strTake (md5hex (("a.tex") ++ ("SECRET") ++ ("2026-01-01T00:00:02"))) 16 :=
  generate_build_hash_shape ("a.tex") ("SECRET") ("2026-01-01T00:00:02")
